import Mathlib

/-!
# Verification of the note_task_dev native backend

Shallow embedding of the coordination-layer components of the repository
(Tauri backend, `src-tauri/src/*.rs`) together with proofs of the testable
properties stated in its specification.

Conventions used throughout:
* Bytes are modelled as `Nat` (values `0..255`); byte buffers as `List Nat`.
* Rust `String`s inside parsed OSC event payloads are modelled as lists of
  Unicode scalar values (`List Nat`); `String` is used where the original code
  stores text verbatim.
* Machine integers are modelled as `Nat`/`Int` (no overflow is reachable in
  the modelled code paths: the only shift is `1 << min(n,3)`).
* Fallible operations return `Option`/`Except`; external effects (HTTP calls
  to the sidecar, event emission) are reified as action traces.
* SQLite tables are modelled as lists of row structures; `uuid::Uuid::new_v4`
  and `CURRENT_TIMESTAMP` are modelled as explicit fresh-id / clock arguments.
-/

/-! ## OSC 633 parser (`src-tauri/src/osc_parser.rs`)

Streaming state machine that extracts shell integration sequences from PTY
output and passes through all other data. -/

/-- `OscEvent` from `osc_parser.rs`: the four recognized `633;` sequences.
Payload strings are modelled as lists of Unicode scalar values. -/
inductive OscEvent where
  | CommandStart : OscEvent
  | CommandEnd (exit_code : Option Int) : OscEvent
  | CommandText (text : List Nat) : OscEvent
  | CwdChange (path : List Nat) : OscEvent
deriving DecidableEq

/-- Parser states: `Normal`, `Escape` (saw ESC), `OscBody` (saw `ESC ]`). -/
inductive PState where
  | Normal : PState
  | Escape : PState
  | OscBody : PState
deriving DecidableEq

/-- `MAX_OSC_BUFFER_SIZE`: 64 KiB limit on the OSC body buffer. -/
def MAX_OSC_BUFFER_SIZE : Nat := 64 * 1024

/-- The streaming parser: current state plus the partial OSC body buffer. -/
structure OscParser where
  state : PState
  osc_buf : List Nat
deriving DecidableEq

/-- `OscParser::new()`. -/
def OscParser.new : OscParser := ⟨PState.Normal, []⟩

/-- `ParseResult`: clean pass-through bytes plus extracted events. -/
structure ParseResult where
  output : List Nat
  events : List OscEvent
deriving DecidableEq

/-- A UTF-8 continuation byte (`0x80..=0xBF`). -/
def IsCont (b : Nat) : Prop := 128 ≤ b ∧ b ≤ 191

instance (b : Nat) : Decidable (IsCont b) := by unfold IsCont; infer_instance

/-- One step of UTF-8 decoding with replacement, modelling
`String::from_utf8_lossy` from the Rust standard library: given the first
byte and the remaining bytes, return the decoded Unicode scalar value and how
many extra bytes (beyond the first) were consumed.  Malformed input yields
U+FFFD (65533) for each maximal valid subpart. -/
def utf8DecodeOne (b : Nat) (rest : List Nat) : Nat × Nat :=
  if b < 128 then (b, 0)
  else if 194 ≤ b ∧ b ≤ 223 then
    match rest with
    | b2 :: _ => if IsCont b2 then ((b - 192) * 64 + (b2 - 128), 1) else (65533, 0)
    | [] => (65533, 0)
  else if 224 ≤ b ∧ b ≤ 239 then
    match rest with
    | b2 :: rest2 =>
      if (if b = 224 then 160 else 128) ≤ b2 ∧ b2 ≤ (if b = 237 then 159 else 191) then
        match rest2 with
        | b3 :: _ =>
          if IsCont b3 then ((b - 224) * 4096 + (b2 - 128) * 64 + (b3 - 128), 2)
          else (65533, 1)
        | [] => (65533, 1)
      else (65533, 0)
    | [] => (65533, 0)
  else if 240 ≤ b ∧ b ≤ 244 then
    match rest with
    | b2 :: rest2 =>
      if (if b = 240 then 144 else 128) ≤ b2 ∧ b2 ≤ (if b = 244 then 143 else 191) then
        match rest2 with
        | b3 :: rest3 =>
          if IsCont b3 then
            match rest3 with
            | b4 :: _ =>
              if IsCont b4 then
                ((b - 240) * 262144 + (b2 - 128) * 4096 + (b3 - 128) * 64 + (b4 - 128), 3)
              else (65533, 2)
            | [] => (65533, 2)
          else (65533, 1)
        | [] => (65533, 1)
      else (65533, 0)
    | [] => (65533, 0)
  else (65533, 0)

/-- Fuel-driven worker for `utf8Lossy`; the fuel dominates the list length,
so recursion is structural (and kernel-reducible). -/
def utf8LossyAux : Nat → List Nat → List Nat
  | _, [] => []
  | 0, _ :: _ => []
  | fuel + 1, b :: rest =>
    let r := utf8DecodeOne b rest
    r.1 :: utf8LossyAux fuel (rest.drop r.2)

/-- Full lossy UTF-8 decode of a byte list into Unicode scalar values,
modelling `String::from_utf8_lossy`. -/
def utf8Lossy (l : List Nat) : List Nat := utf8LossyAux l.length l

/-- The byte (and scalar-value) sequence of the string `"633;"`. -/
def osc633Marker : List Nat := [54, 51, 51, 59]

/-- The scalar-value sequence of the string `"Cwd="`. -/
def cwdMarker : List Nat := [67, 119, 100, 61]

/-- Split off everything before the first occurrence of `sep`, if present. -/
def splitFirst (sep : Nat) : List Nat → Option (List Nat × List Nat)
  | [] => none
  | x :: xs =>
    if x = sep then some ([], xs)
    else
      match splitFirst sep xs with
      | some (l, r) => some (x :: l, r)
      | none => none

/-- `body.splitn(3, ';')` from Rust: at most three parts, the last unsplit. -/
def splitn3Semi (body : List Nat) : List (List Nat) :=
  match splitFirst 59 body with
  | none => [body]
  | some (p1, r1) =>
    match splitFirst 59 r1 with
    | none => [p1, r1]
    | some (p2, r2) => [p1, p2, r2]

/-- Rust `str::parse::<i32>()` (then `.ok()`): optional sign, one or more
ASCII digits, value within the `i32` range; anything else gives `none`. -/
def parseI32 (s : List Nat) : Option Int :=
  let signed : Bool × List Nat :=
    match s with
    | 43 :: rest => (false, rest)
    | 45 :: rest => (true, rest)
    | _ => (false, s)
  let ds := signed.2
  if ds = [] then none
  else if ds.all (fun d => decide (48 ≤ d ∧ d ≤ 57)) then
    let n : Nat := ds.foldl (fun acc d => acc * 10 + (d - 48)) 0
    let v : Int := if signed.1 then -(n : Int) else (n : Int)
    if -2147483648 ≤ v ∧ v ≤ 2147483647 then some v else none
  else none

/-- `OscParser::handle_osc`: interpret a completed OSC body.  A `633;...`
body produces an event (or nothing for unknown subtypes); any other body is
reinjected as `ESC ] body BEL`.  Returns the bytes appended to the output and
the events appended; the buffer is cleared by the caller. -/
def handle_osc (osc_buf : List Nat) : List Nat × List OscEvent :=
  let body := utf8Lossy osc_buf
  if osc633Marker.isPrefixOf body then
    match splitn3Semi body with
    | _ :: kind :: restParts =>
      let arg? := restParts.head?
      if kind = [67] then ([], [OscEvent.CommandStart])
      else if kind = [68] then ([], [OscEvent.CommandEnd (arg?.bind parseI32)])
      else if kind = [69] then ([], [OscEvent.CommandText (arg?.getD [])])
      else if kind = [80] then
        let prop := arg?.getD []
        if cwdMarker.isPrefixOf prop then ([], [OscEvent.CwdChange (prop.drop 4)])
        else ([], [])
      else ([], [])
    | _ => ([], [])
  else ([27, 93] ++ osc_buf ++ [7], [])

/-- One byte of `OscParser::parse`: returns the new parser, the bytes pushed
to the output and the events pushed. -/
def OscParser.step (p : OscParser) (byte : Nat) : OscParser × List Nat × List OscEvent :=
  match p.state with
  | PState.Normal =>
    if byte = 27 then ({ p with state := PState.Escape }, [], [])
    else if byte = 7 then (p, [byte], [])
    else (p, [byte], [])
  | PState.Escape =>
    if byte = 93 then ({ p with state := PState.OscBody, osc_buf := [] }, [], [])
    else ({ p with state := PState.Normal }, [27, byte], [])
  | PState.OscBody =>
    if byte = 7 then
      let r := handle_osc p.osc_buf
      (⟨PState.Normal, []⟩, r.1, r.2)
    else if byte = 27 then
      if MAX_OSC_BUFFER_SIZE ≤ p.osc_buf.length then (⟨PState.Normal, []⟩, [], [])
      else ({ p with osc_buf := p.osc_buf ++ [byte] }, [], [])
    else if byte = 92 ∧ p.osc_buf.getLast? = some 27 then
      let r := handle_osc p.osc_buf.dropLast
      (⟨PState.Normal, []⟩, r.1, r.2)
    else
      if MAX_OSC_BUFFER_SIZE ≤ p.osc_buf.length then (⟨PState.Normal, []⟩, [], [])
      else ({ p with osc_buf := p.osc_buf ++ [byte] }, [], [])

/-- `OscParser::parse`: consume a chunk byte by byte, returning the advanced
parser together with the chunk's `ParseResult`. -/
def OscParser.parse (p : OscParser) : List Nat → OscParser × ParseResult
  | [] => (p, ⟨[], []⟩)
  | b :: rest =>
    let s := p.step b
    let t := s.1.parse rest
    (t.1, ⟨s.2.1 ++ t.2.output, s.2.2 ++ t.2.events⟩)

/-- Feed a sequence of chunks to one parser, concatenating the per-chunk
outputs and event lists (what the PTY reader loop does across reads). -/
def OscParser.parseChunks (p : OscParser) : List (List Nat) → OscParser × ParseResult
  | [] => (p, ⟨[], []⟩)
  | c :: cs =>
    let s := p.parse c
    let t := s.1.parseChunks cs
    (t.1, ⟨s.2.output ++ t.2.output, s.2.events ++ t.2.events⟩)

/-! ### Token grammar for escape-structured inputs

Used to state what pass-through means for inputs with no `633;` sequences. -/

/-- A lexical unit of PTY input: a plain byte, an `ESC x` pair that is not an
OSC opener, or a complete terminated OSC sequence (`st = true` means the
`ESC \` string terminator, `st = false` the BEL terminator). -/
inductive Tok where
  | plain (b : Nat) : Tok
  | esc2 (b : Nat) : Tok
  | osc (body : List Nat) (st : Bool) : Tok
deriving DecidableEq

/-- The bytes a token occupies on the wire. -/
def Tok.bytes : Tok → List Nat
  | Tok.plain b => [b]
  | Tok.esc2 b => [27, b]
  | Tok.osc body st => [27, 93] ++ body ++ (if st then [27, 92] else [7])

/-- The bytes the parser emits for a token (a non-`633;` OSC is always
reinjected with a BEL terminator). -/
def Tok.emitted : Tok → List Nat
  | Tok.plain b => [b]
  | Tok.esc2 b => [27, b]
  | Tok.osc body _ => [27, 93] ++ body ++ [7]

/-- Well-formedness: a plain byte is not ESC, an `ESC x` pair does not open
an OSC, and an OSC body holds no terminator bytes, does not carry the `633;`
marker, and fits the 64 KiB buffer (including the buffered ESC of an `ESC \`
terminator). -/
def Tok.wf : Tok → Prop
  | Tok.plain b => b ≠ 27
  | Tok.esc2 b => b ≠ 93
  | Tok.osc body st =>
      (∀ x ∈ body, x ≠ 7 ∧ x ≠ 27) ∧ ¬ osc633Marker <+: body ∧
      body.length + (if st then 1 else 0) ≤ MAX_OSC_BUFFER_SIZE

/-- A token whose wire form the parser reproduces byte-for-byte (everything
except `ESC \`-terminated OSC sequences). -/
def Tok.belTerminated : Tok → Prop
  | Tok.osc _ st => st = false
  | _ => True

instance (t : Tok) : Decidable t.wf := by
  cases t <;> simp only [Tok.wf] <;> infer_instance

instance (t : Tok) : Decidable t.belTerminated := by
  cases t <;> simp only [Tok.belTerminated] <;> infer_instance

/-! ## Sidecar manager (`src-tauri/src/sidecar.rs`) -/

/-- `SidecarStatus` from `sidecar.rs`. -/
inductive SidecarStatus where
  | Starting : SidecarStatus
  | Healthy : SidecarStatus
  | Unhealthy : SidecarStatus
  | Stopped : SidecarStatus
deriving DecidableEq

/-- `SidecarManager`: the child process is modelled by its PID; spawning is
an external effect passed in as an `Except` argument to `start`/`restart`. -/
structure SidecarManager where
  process : Option Nat
  port : Nat
  restart_count : Nat
  max_restarts : Nat
  status : SidecarStatus
deriving DecidableEq

/-- `SidecarManager::new(port, ..)`. -/
def SidecarManager.new (port : Nat) : SidecarManager :=
  { process := none, port := port, restart_count := 0, max_restarts := 3,
    status := SidecarStatus.Stopped }

/-- `SidecarManager::start`, with the OS spawn outcome as an argument. -/
def SidecarManager.start (m : SidecarManager) (spawn : Except String Nat) :
    SidecarManager × Except String Unit :=
  let m1 := { m with status := SidecarStatus.Starting }
  match spawn with
  | Except.error e => (m1, Except.error ("Failed to spawn sidecar: " ++ e))
  | Except.ok pid => ({ m1 with process := some pid }, Except.ok ())

/-- `SidecarManager::stop`: kill and reap the child, state `Stopped`. -/
def SidecarManager.stop (m : SidecarManager) : SidecarManager :=
  { m with process := none, status := SidecarStatus.Stopped }

/-- `SidecarManager::can_restart`. -/
def SidecarManager.can_restart (m : SidecarManager) : Bool :=
  decide (m.restart_count < m.max_restarts)

/-- `SidecarManager::restart`. -/
def SidecarManager.restart (m : SidecarManager) (spawn : Except String Nat) :
    SidecarManager × Except String Unit :=
  if !m.can_restart then
    (m, Except.error ("Max restarts (" ++ toString m.max_restarts ++ ") exceeded"))
  else
    let m1 := { m with restart_count := m.restart_count + 1 }
    m1.stop.start spawn

/-- `SidecarManager::mark_healthy`. -/
def SidecarManager.mark_healthy (m : SidecarManager) : SidecarManager :=
  { m with status := SidecarStatus.Healthy, restart_count := 0 }

/-- `SidecarManager::mark_unhealthy`. -/
def SidecarManager.mark_unhealthy (m : SidecarManager) : SidecarManager :=
  { m with status := SidecarStatus.Unhealthy }

/-- `SidecarManager::backoff_duration`, in seconds:
`Duration::from_secs(1 << restart_count.min(3))`. -/
def SidecarManager.backoff_duration_secs (m : SidecarManager) : Nat :=
  1 <<< min m.restart_count 3

/-! ## Store: entity links (`src-tauri/src/db.rs`)

The `entity_links` table is a list of rows; the `idx_links_unique` unique
index on `(source_entity_id, target_entity_id, relationship_type)` is the
`LinkKeyUnique` invariant below.  `confidence REAL` is modelled as `ℚ`. -/

/-- A row of `entity_links`. -/
structure EntityLinkRow where
  id : String
  source_entity_id : String
  target_entity_id : String
  relationship_type : String
  confidence : ℚ
  auto_generated : Bool
  context : Option String
  created_at : Nat
deriving DecidableEq

/-- Whether a row matches the unique key of `idx_links_unique`. -/
def linkKeyMatch (source target rel : String) (row : EntityLinkRow) : Bool :=
  row.source_entity_id == source && row.target_entity_id == target &&
    row.relationship_type == rel

/-- `create_entity_link_with_confidence`: `INSERT .. ON CONFLICT(source,
target, relationship_type) DO UPDATE SET context, confidence, auto_generated`
followed by a `SELECT` of the row with that key.  On conflict the existing
row keeps its `id` and `created_at`; otherwise a fresh row with the newly
generated uuid (`newId`) is inserted. -/
def create_entity_link_with_confidence (table : List EntityLinkRow) (newId : String)
    (now : Nat) (source target rel : String) (confidence : ℚ) (auto : Bool)
    (context : Option String) : List EntityLinkRow × Option EntityLinkRow :=
  let table1 :=
    if table.any (linkKeyMatch source target rel) then
      table.map fun row =>
        if linkKeyMatch source target rel row then
          { row with confidence := confidence, auto_generated := auto, context := context }
        else row
    else
      table ++ [{ id := newId, source_entity_id := source, target_entity_id := target,
                  relationship_type := rel, confidence := confidence,
                  auto_generated := auto, context := context, created_at := now }]
  (table1, table1.find? (linkKeyMatch source target rel))

/-- `confirm_entity_link`: `UPDATE entity_links SET auto_generated = 0 WHERE
id = ?`; returns whether a row was updated. -/
def confirm_entity_link (table : List EntityLinkRow) (link_id : String) :
    List EntityLinkRow × Bool :=
  (table.map fun row =>
      if row.id == link_id then { row with auto_generated := false } else row,
   table.any fun row => row.id == link_id)

/-- The `idx_links_unique` invariant: at most one row per
`(source, target, relationship_type)` key. -/
def LinkKeyUnique (table : List EntityLinkRow) : Prop :=
  ∀ source target rel, table.countP (linkKeyMatch source target rel) ≤ 1

/-! ## Store: terminal commands (`src-tauri/src/db.rs`) -/

/-- A row of `terminal_commands`. -/
structure TerminalCommandRow where
  id : String
  workspace_profile_id : String
  command : String
  cwd : Option String
  exit_code : Option Int
  duration_ms : Option Nat
  stdout_preview : Option String
  stdout_size_bytes : Option Nat
deriving DecidableEq

/-- `insert_terminal_command`: inserts one row; `size_bytes` is the byte
length (`str::len`) of the captured output, and `output` itself is bound to
the `stdout_preview` column. -/
def insert_terminal_command (table : List TerminalCommandRow)
    (newId profile_id command : String) (cwd : Option String)
    (exit_code : Option Int) (duration_ms : Option Nat) (output : Option String) :
    List TerminalCommandRow × String :=
  let size_bytes := output.map fun s => s.utf8ByteSize
  (table ++ [{ id := newId, workspace_profile_id := profile_id, command := command,
               cwd := cwd, exit_code := exit_code, duration_ms := duration_ms,
               stdout_preview := output, stdout_size_bytes := size_bytes }],
   newId)

/-! ## Store: file index and entities (`src-tauri/src/db.rs`) -/

/-- A row of `file_index` (primary key `(file_path, workspace_profile_id)`). -/
structure FileIndexRow where
  file_path : String
  workspace_profile_id : String
  content_hash : String
  language : String
  chunk_count : Nat
  file_size_bytes : Nat
  last_indexed : Nat
deriving DecidableEq

/-- A row of `entities`, restricted to the columns the indexing pipeline
touches.  The `metadata` JSON column is modelled structurally as the
`(start_line, end_line)` object the watcher serializes into it. -/
structure EntityRow where
  id : String
  entity_type : String
  title : String
  source_file : Option String
  workspace_profile_id : Option String
  metadata : Option (Option Nat × Option Nat)
  created_at : Nat
  updated_at : Nat
deriving DecidableEq

/-- The store state visible to the indexing pipeline.  `active_profile` is
the id of the unique profile with `active = 1` (what `get_active_profile_id`
reads). -/
structure Db where
  active_profile : Option String
  file_index : List FileIndexRow
  entities : List EntityRow
deriving DecidableEq

/-- `get_active_profile_id`. -/
def get_active_profile_id (db : Db) : Option String := db.active_profile

/-- `get_file_hash`: `SELECT content_hash FROM file_index WHERE file_path =
?1 AND workspace_profile_id = ?2`. -/
def get_file_hash (db : Db) (file_path profile_id : String) : Option String :=
  (db.file_index.find? fun r =>
      r.file_path == file_path && r.workspace_profile_id == profile_id).map
    (fun r => r.content_hash)

/-- `upsert_file_index`: insert or update on the `(file_path, profile)` key,
touching `last_indexed`. -/
def upsert_file_index (db : Db) (file_path profile_id content_hash language : String)
    (chunk_count file_size now : Nat) : Db :=
  let keyed := fun r : FileIndexRow =>
    r.file_path == file_path && r.workspace_profile_id == profile_id
  if db.file_index.any keyed then
    { db with file_index := db.file_index.map fun r =>
        if keyed r then
          { r with content_hash := content_hash, language := language,
                   chunk_count := chunk_count, file_size_bytes := file_size,
                   last_indexed := now }
        else r }
  else
    { db with file_index := db.file_index ++
        [{ file_path := file_path, workspace_profile_id := profile_id,
           content_hash := content_hash, language := language,
           chunk_count := chunk_count, file_size_bytes := file_size,
           last_indexed := now }] }

/-- `upsert_entity`: keyed by `(title, source_file, entity_type)`; updates
metadata and `updated_at` on conflict, otherwise inserts with a fresh uuid. -/
def upsert_entity (db : Db) (entity_type title source_file profile_id : String)
    (metadata : Option Nat × Option Nat) (newId : String) (now : Nat) : Db :=
  match db.entities.find? (fun e =>
      e.title == title && e.source_file == some source_file &&
        e.entity_type == entity_type) with
  | some e =>
    { db with entities := db.entities.map fun r =>
        if r.id == e.id then { r with metadata := some metadata, updated_at := now }
        else r }
  | none =>
    { db with entities := db.entities ++
        [{ id := newId, entity_type := entity_type, title := title,
           source_file := some source_file, workspace_profile_id := some profile_id,
           metadata := some metadata, created_at := now, updated_at := now }] }

/-- `delete_entities_by_source_file`: returns the new store and the number of
rows deleted. -/
def delete_entities_by_source_file (db : Db) (source_file : String) : Db × Nat :=
  let kept := db.entities.filter fun e => !(e.source_file == some source_file)
  ({ db with entities := kept }, db.entities.length - kept.length)

/-! ## Indexing pipeline (`src-tauri/src/watcher.rs`, `src-tauri/src/ingest.rs`) -/

/-- Substring containment, modelling Rust `str::contains(&str)`. -/
def strContains (hay needle : String) : Bool := decide (needle.toList <:+: hay.toList)

/-- Drop leading whitespace characters. -/
def trimLeftChars : List Char → List Char
  | [] => []
  | c :: cs => if c.isWhitespace then trimLeftChars cs else c :: cs

/-- Rust `str::trim`, modelled structurally (kernel-reducible, unlike
`String.trim`); agrees with Rust on ASCII whitespace. -/
def rustTrim (s : String) : String :=
  String.mk (trimLeftChars (trimLeftChars s.toList).reverse).reverse

/-- `detect_language` from `ingest.rs`, over the file extension
(`Path::extension`). -/
def detect_language (ext : Option String) : String :=
  match ext with
  | some "rs" => "rust"
  | some "py" => "python"
  | some "ts" => "typescript"
  | some "tsx" => "typescript"
  | some "js" => "javascript"
  | some "jsx" => "javascript"
  | some "md" => "markdown"
  | some "toml" => "toml"
  | some "json" => "json"
  | some "yaml" => "yaml"
  | some "yml" => "yaml"
  | some "html" => "html"
  | some "css" => "css"
  | some "sql" => "sql"
  | some "sh" => "shell"
  | some "bash" => "shell"
  | some "zsh" => "shell"
  | some "txt" => "text"
  | _ => "text"

/-- `detect_source_type` from `ingest.rs`: test-path patterns first, then by
extension. -/
def detect_source_type (path_str : String) (ext : Option String) : String :=
  if strContains path_str "/tests/" || strContains path_str "/test/" ||
      strContains path_str "__tests__" || strContains path_str "test_" ||
      strContains path_str ".test." || strContains path_str ".spec." then
    "test"
  else
    match ext with
    | some "md" => "docs"
    | some "txt" => "docs"
    | some "toml" => "config"
    | some "json" => "config"
    | some "yaml" => "config"
    | some "yml" => "config"
    | some "rs" => "code"
    | some "py" => "code"
    | some "ts" => "code"
    | some "tsx" => "code"
    | some "js" => "code"
    | some "jsx" => "code"
    | some "html" => "code"
    | some "css" => "code"
    | some "sql" => "code"
    | some "sh" => "code"
    | some "bash" => "code"
    | some "zsh" => "code"
    | _ => "unknown"

/-- An entity returned by the sidecar `/ingest` endpoint. -/
structure EntityInfo where
  name : String
  entity_type : String
  start_line : Option Nat
  end_line : Option Nat
deriving DecidableEq

/-- The sidecar `/ingest` response. -/
structure IngestResponse where
  chunk_count : Nat
  entities : List EntityInfo
deriving DecidableEq

/-- `IndexingState` from `main.rs`. -/
structure IndexingState where
  total_queued : Nat
  completed : Nat
  current_file : Option String
deriving DecidableEq

/-- `IndexingState::is_idle`: `completed >= total_queued`. -/
def IndexingState.is_idle (s : IndexingState) : Bool :=
  decide (s.completed ≥ s.total_queued)

/-- Observable effects of the per-file pipeline: UI events and sidecar HTTP
calls, in program order. -/
inductive WatchAction where
  | emitProgress (completed total : Nat) (current_file : Option String) (is_idle : Bool)
  | httpDeleteEmbeddings (file_path : String)
  | httpIngest (file_path content language source_type git_branch : String)
  | emitFileComplete (file_path : String) (chunk_count completed total : Nat)
  | emitFileError (file_path error : String) (completed total : Nat)
deriving DecidableEq

/-- Upserting every entity of an ingest response, consuming one fresh uuid
per entity (step 5 of `process_file_with_events`'s success branch). -/
def upsert_entities_from_ingest (db : Db) (file_path profile_id : String)
    (entities : List EntityInfo) (freshIds : List String) (now : Nat) : Db :=
  match entities with
  | [] => db
  | e :: es =>
    upsert_entities_from_ingest
      (upsert_entity db e.entity_type e.name file_path profile_id
        (e.start_line, e.end_line) (freshIds.headD "") now)
      file_path profile_id es freshIds.tail now

/-- `process_file_with_events` from `watcher.rs`, for one file: the
filesystem read result, the SHA-256 function (external `sha2` crate), the
path's extension, and the sidecar `/ingest` outcome are explicit arguments;
the returned trace lists every emitted event and HTTP call in order. -/
def process_file_with_events (db : Db) (ix : IndexingState) (path : String)
    (readResult : Option String) (sha256 : String → String) (ext : Option String)
    (git_branch : String) (ingestResult : Except String IngestResponse)
    (freshIds : List String) (now : Nat) :
    Db × IndexingState × List WatchAction :=
  match readResult with
  | none => (db, ix, [])
  | some content =>
    if rustTrim content = "" then (db, ix, [])
    else
      let new_hash := sha256 content
      let file_size := content.utf8ByteSize
      let language := detect_language ext
      let skip :=
        match get_active_profile_id db with
        | some profile_id =>
          match get_file_hash db path profile_id with
          | some existing_hash => existing_hash == new_hash
          | none => false
        | none => false
      if skip then (db, ix, [])
      else
        let ix1 := { ix with total_queued := ix.total_queued + 1,
                             current_file := some path }
        let acts1 := [WatchAction.emitProgress ix1.completed ix1.total_queued
                        ix1.current_file false,
                      WatchAction.httpDeleteEmbeddings path]
        let db1 := (delete_entities_by_source_file db path).1
        let acts2 := acts1 ++ [WatchAction.httpIngest path content language
                        (detect_source_type path ext) git_branch]
        match ingestResult with
        | Except.ok resp =>
          let db2 :=
            match get_active_profile_id db1 with
            | some profile_id =>
              upsert_entities_from_ingest
                (upsert_file_index db1 path profile_id new_hash language
                  resp.chunk_count file_size now)
                path profile_id resp.entities freshIds now
            | none => db1
          let ix2 := { ix1 with completed := ix1.completed + 1 }
          let idle := ix2.is_idle
          let ix3 := if idle then { ix2 with current_file := none } else ix2
          (db2, ix3,
            acts2 ++ [WatchAction.emitFileComplete path resp.chunk_count
                        ix3.completed ix3.total_queued,
                      WatchAction.emitProgress ix3.completed ix3.total_queued
                        ix3.current_file idle])
        | Except.error e =>
          let ix2 := { ix1 with completed := ix1.completed + 1 }
          let idle := ix2.is_idle
          let ix3 := if idle then { ix2 with current_file := none } else ix2
          (db1, ix3,
            acts2 ++ [WatchAction.emitFileError path e ix3.completed ix3.total_queued,
                      WatchAction.emitProgress ix3.completed ix3.total_queued
                        ix3.current_file idle])

/-! ## Universal search scoring (`src-tauri/src/commands.rs`)

`f64` scores are modelled as `ℚ`; the constants `0.95, 0.80, 0.60, 0.50,
0.05, 0.02` are exact decimals.  String operations are modelled on character
lists (structurally recursive, hence kernel-reducible): `rustToLower` models
`str::to_lowercase` (they agree on ASCII) and `splitOnChar` models
`str::split(char)` for a one-character separator. -/

/-- Rust `str::split(sep)` for a one-character separator, keeping empty
pieces. -/
def splitOnChar (sep : Char) : List Char → List (List Char)
  | [] => [[]]
  | c :: cs =>
    if c = sep then [] :: splitOnChar sep cs
    else
      match splitOnChar sep cs with
      | h :: t => (c :: h) :: t
      | [] => [[c]]

/-- Rust `str::to_lowercase`, modelled per character (agrees on ASCII). -/
def rustToLower (s : String) : String := String.mk (s.toList.map Char.toLower)

/-- Rust `str::parse::<u64>()` (then `.ok()`): optional `+`, one or more
ASCII digits, value within the `u64` range. -/
def rust_parse_u64 (s : List Char) : Option Nat :=
  let ds := match s with
    | '+' :: rest => rest
    | _ => s
  if ds = [] then none
  else if ds.all fun c => c.isDigit then
    let n := ds.foldl (fun acc c => acc * 10 + (c.toNat - 48)) 0
    if n ≤ 18446744073709551615 then some n else none
  else none

/-- `chrono_parse_rough` from `commands.rs`: rough epoch seconds from a
`YYYY-MM-DD HH:MM:SS` / `YYYY-MM-DDTHH:MM:SS` timestamp, using 365-day years
and 30-day months — per its own comment "not precise, but good enough for
recency comparison".  (The Rust `u64` subtraction `y - 1970` is modelled by
truncated `Nat` subtraction; `replace('T', " ")` and the splits are modelled
at character level.) -/
def chrono_parse_rough (ts : String) : Option Nat :=
  let chars := ts.toList.map fun c => if c = 'T' then ' ' else c
  match splitOnChar ' ' chars with
  | [] => none
  | p0 :: timeRest =>
    match (splitOnChar '-' p0).filterMap rust_parse_u64 with
    | y :: m :: d :: _ =>
      let days := (y - 1970) * 365 + (m - 1) * 30 + d
      let base := days * 86400
      let secs :=
        match timeRest with
        | [] => base
        | p1 :: _ =>
          match (splitOnChar ':' p1).filterMap rust_parse_u64 with
          | h :: mi :: s :: _ => base + h * 3600 + mi * 60 + s
          | [h, mi] => base + h * 3600 + mi * 60
          | _ => base
      some secs
    | _ => none

/-- `compute_entity_score` from `commands.rs`; `now` is the current epoch
second (`SystemTime::now().duration_since(UNIX_EPOCH).as_secs()`), and
`now - updated` models `saturating_sub`. -/
def compute_entity_score (title : String) (content : Option String) (query : String)
    (updated_at : String) (now : Nat) : ℚ :=
  let title_lower := rustToLower title
  let query_lower := rustToLower query
  let base : ℚ :=
    if title_lower = query_lower then 95/100
    else if strContains title_lower query_lower then 80/100
    else if (content.map fun c => strContains (rustToLower c) query_lower).getD false
      then 60/100
    else 50/100
  let score : ℚ :=
    match chrono_parse_rough updated_at with
    | some updated =>
      let diff_secs := now - updated
      if diff_secs < 86400 then base + 5/100
      else if diff_secs < 604800 then base + 2/100
      else base
    | none => base
  min score 1

/-- Whether a year is a Gregorian leap year (reference calendar, used to
state what "updated within the last 24 hours" really means). -/
def isLeapYear (y : Nat) : Bool :=
  (y % 4 == 0 && y % 100 != 0) || y % 400 == 0

/-- Days in the calendar years `1970, …, 1970 + n − 1` (reference calendar). -/
def daysBeforeYearAux : Nat → Nat
  | 0 => 0
  | n + 1 => daysBeforeYearAux n + (if isLeapYear (1970 + n) then 366 else 365)

/-- Days in the months of year `y` strictly before month `m` (reference
calendar). -/
def daysBeforeMonth (y m : Nat) : Nat :=
  (([31, if isLeapYear y then 29 else 28, 31, 30, 31, 30,
     31, 31, 30, 31, 30, 31]).take (m - 1)).sum

/-- The true Unix timestamp (seconds since 1970-01-01 00:00:00 UTC) of a
civil UTC date-time — what `SystemTime::now()` reports at that instant.
Reference definition: an entity whose `updated_at` names this instant was
"updated within the last 24 hours" at `now` exactly when
`now - unixEpochSecs … < 86400`. -/
def unixEpochSecs (y m d h mi s : Nat) : Nat :=
  (daysBeforeYearAux (y - 1970) + daysBeforeMonth y m + (d - 1)) * 86400
    + h * 3600 + mi * 60 + s

/-! ## PTY reader output capture (`src-tauri/src/pty.rs`)

The per-command capture buffer between `CommandStart` and `CommandEnd`: each
nonempty pass-through chunk is appended only while the buffer is below the
1 MiB cap. -/

/-- The capture cap from `pty.rs`: `1024 * 1024`. -/
def PTY_CAPTURE_CAP : Nat := 1024 * 1024

/-- One pass-through chunk arriving while a command is running:
`if output_buf.len() < 1024 * 1024 { output_buf.extend_from_slice(chunk) }`. -/
def capture_append (output_buf chunk : List Nat) : List Nat :=
  if output_buf.length < PTY_CAPTURE_CAP then output_buf ++ chunk else output_buf

/-- The capture buffer after a sequence of pass-through chunks, starting from
the empty buffer opened at `CommandStart`. -/
def capture_run (chunks : List (List Nat)) : List Nat :=
  chunks.foldl capture_append []

/-! ## Helper lemmas: UTF-8 decoding -/

theorem utf8LossyAux_congr (f₁ : Nat) :
    ∀ (f₂ : Nat) (l : List Nat), l.length ≤ f₁ → l.length ≤ f₂ →
      utf8LossyAux f₁ l = utf8LossyAux f₂ l := by
  induction f₁ with
  | zero =>
    intro f₂ l h₁ _
    have : l = [] := List.eq_nil_of_length_eq_zero (Nat.le_zero.mp h₁)
    subst this
    cases f₂ <;> rfl
  | succ f ih =>
    intro f₂ l h₁ h₂
    cases l with
    | nil => cases f₂ <;> rfl
    | cons b rest =>
      cases f₂ with
      | zero => simp at h₂
      | succ g =>
        have hdrop : (rest.drop (utf8DecodeOne b rest).2).length ≤ rest.length := by
          simp [List.length_drop]
        simp only [utf8LossyAux]
        rw [ih g (rest.drop (utf8DecodeOne b rest).2)
          (le_trans hdrop (by simpa using h₁)) (le_trans hdrop (by simpa using h₂))]

/-- Unfolding equation for `utf8Lossy` on a nonempty list. -/
theorem utf8Lossy_cons (b : Nat) (rest : List Nat) :
    utf8Lossy (b :: rest) =
      (utf8DecodeOne b rest).1 :: utf8Lossy (rest.drop (utf8DecodeOne b rest).2) := by
  show utf8LossyAux (rest.length + 1) (b :: rest) = _
  simp only [utf8LossyAux, utf8Lossy]
  rw [utf8LossyAux_congr rest.length _ _ (by simp [List.length_drop]) le_rfl]

/-- An ASCII scalar value in the decoded stream can only come from the
identical single byte: every multi-byte or replacement decode is `≥ 128`. -/
theorem utf8DecodeOne_ascii (b : Nat) (rest : List Nat)
    (h : (utf8DecodeOne b rest).1 < 128) : b < 128 ∧ utf8DecodeOne b rest = (b, 0) := by
  unfold utf8DecodeOne at h ⊢
  by_cases h1 : b < 128
  · simp only [if_pos h1] at h ⊢
    exact ⟨h1, trivial⟩
  · simp only [if_neg h1] at h ⊢
    exfalso
    by_cases h2 : 194 ≤ b ∧ b ≤ 223
    · simp only [if_pos h2] at h
      cases rest with
      | nil => simp at h
      | cons b2 rest2 =>
        by_cases hc : IsCont b2
        · simp only [if_pos hc] at h
          omega
        · simp only [if_neg hc] at h
          omega
    · simp only [if_neg h2] at h
      by_cases h3 : 224 ≤ b ∧ b ≤ 239
      · simp only [if_pos h3] at h
        cases rest with
        | nil => simp at h
        | cons b2 rest2 =>
          by_cases hlo : (if b = 224 then 160 else 128) ≤ b2 ∧ b2 ≤ (if b = 237 then 159 else 191)
          · simp only [if_pos hlo] at h
            cases rest2 with
            | nil => simp at h
            | cons b3 rest3 =>
              by_cases hc3 : IsCont b3
              · simp only [if_pos hc3] at h
                unfold IsCont at hc3
                by_cases h224 : b = 224
                · subst h224
                  simp at hlo
                  omega
                · have h225 : 225 ≤ b := by omega
                  omega
              · simp only [if_neg hc3] at h
                omega
          · simp only [if_neg hlo] at h
            omega
      · simp only [if_neg h3] at h
        by_cases h4 : 240 ≤ b ∧ b ≤ 244
        · simp only [if_pos h4] at h
          cases rest with
          | nil => simp at h
          | cons b2 rest2 =>
            by_cases hlo : (if b = 240 then 144 else 128) ≤ b2 ∧ b2 ≤ (if b = 244 then 143 else 191)
            · simp only [if_pos hlo] at h
              cases rest2 with
              | nil => simp at h
              | cons b3 rest3 =>
                by_cases hc3 : IsCont b3
                · simp only [if_pos hc3] at h
                  cases rest3 with
                  | nil => simp at h
                  | cons b4 rest4 =>
                    by_cases hc4 : IsCont b4
                    · simp only [if_pos hc4] at h
                      unfold IsCont at hc3 hc4
                      by_cases h240 : b = 240
                      · subst h240
                        simp at hlo
                        omega
                      · have h241 : 241 ≤ b := by omega
                        omega
                    · simp only [if_neg hc4] at h
                      omega
                · simp only [if_neg hc3] at h
                  omega
            · simp only [if_neg hlo] at h
              omega
        · simp only [if_neg h4] at h
          omega

/-- An all-ASCII prefix of the lossily decoded text is a byte prefix of the
raw input. -/
theorem utf8Lossy_ascii_leading :
    ∀ (cs bs : List Nat), (∀ c ∈ cs, c < 128) → cs <+: utf8Lossy bs → cs <+: bs := by
  intro cs
  induction cs with
  | nil => intro bs _ _; exact List.nil_prefix
  | cons c cs ih =>
    intro bs hall hpre
    cases bs with
    | nil => simp [utf8Lossy, utf8LossyAux] at hpre
    | cons b rest =>
      rw [utf8Lossy_cons, List.cons_prefix_cons] at hpre
      obtain ⟨hc, hrest⟩ := hpre
      have hlt : (utf8DecodeOne b rest).1 < 128 := by
        rw [← hc]; exact hall c (List.mem_cons_self c cs)
      obtain ⟨hb, heq⟩ := utf8DecodeOne_ascii b rest hlt
      rw [heq] at hrest hc
      simp only [List.drop_zero] at hrest
      refine List.cons_prefix_cons.mpr ⟨hc, ?_⟩
      exact ih rest (fun x hx => hall x (List.mem_cons_of_mem _ hx)) hrest

/-- A buffer whose bytes do not start with `633;` never decodes to a string
starting with `633;`. -/
theorem handle_osc_non633 (buf : List Nat) (h : ¬ osc633Marker <+: buf) :
    handle_osc buf = ([27, 93] ++ buf ++ [7], []) := by
  unfold handle_osc
  have hnp : osc633Marker.isPrefixOf (utf8Lossy buf) = false := by
    rw [← Bool.not_eq_true, List.isPrefixOf_iff_prefix]
    intro hp
    exact h (utf8Lossy_ascii_leading osc633Marker buf (by decide) hp)
  simp [hnp]

/-! ## Helper lemmas: parser composition -/

/-- Parsing a concatenation equals parsing the pieces in sequence with the
state threaded through, concatenating outputs and events. -/
theorem OscParser.parse_append (p : OscParser) (xs ys : List Nat) :
    p.parse (xs ++ ys) =
      (((p.parse xs).1.parse ys).1,
        ⟨(p.parse xs).2.output ++ ((p.parse xs).1.parse ys).2.output,
         (p.parse xs).2.events ++ ((p.parse xs).1.parse ys).2.events⟩) := by
  induction xs generalizing p with
  | nil => simp [OscParser.parse]
  | cons b rest ih =>
    simp only [List.cons_append, OscParser.parse, List.append_eq]
    rw [ih]
    simp [List.append_assoc]

theorem OscParser.parseChunks_eq_parse_flatten (p : OscParser) (chunks : List (List Nat)) :
    p.parseChunks chunks = p.parse chunks.flatten := by
  induction chunks generalizing p with
  | nil => rfl
  | cons c cs ih =>
    simp only [OscParser.parseChunks, List.flatten_cons, OscParser.parse_append, ih]

/-- Parser sanity checks mirroring the Rust unit tests. -/
example : (OscParser.new.parse [72, 105]).2 = ⟨[72, 105], []⟩ := by decide

example :
    (OscParser.new.parse [27, 93, 54, 51, 51, 59, 67, 7]).2
      = ⟨[], [OscEvent.CommandStart]⟩ := by decide

example :
    (OscParser.new.parse [27, 93, 54, 51, 51, 59, 68, 59, 48, 27, 92]).2
      = ⟨[], [OscEvent.CommandEnd (some 0)]⟩ := by decide

example :
    (OscParser.new.parse [27, 93, 48, 59, 77, 7]).2
      = ⟨[27, 93, 48, 59, 77, 7], []⟩ := by decide

example :
    (OscParser.new.parse
        [27, 93, 54, 51, 51, 59, 80, 59, 67, 119, 100, 61, 47, 104, 7]).2
      = ⟨[], [OscEvent.CwdChange [47, 104]]⟩ := by decide

/-! ## C1: chunk invariance -/

/-- C1: For every byte stream and every way of splitting it into consecutive
chunks, feeding the chunks one at a time to a single `OscParser` produces the
same ordered sequence of OSC events and the same concatenated pass-through
output bytes as feeding the whole stream in one `parse` call. -/
theorem osc_parse_chunking_invariant (chunks : List (List Nat)) :
    (OscParser.new.parseChunks chunks).2 = (OscParser.new.parse chunks.flatten).2 := by
  rw [OscParser.parseChunks_eq_parse_flatten]

/-- The last element of a list not containing `a` is never `a`. -/
theorem getLast?_ne_of_not_mem {l : List Nat} {a : Nat} (h : a ∉ l) :
    l.getLast? ≠ some a := by
  induction l with
  | nil => simp
  | cons x xs ih =>
    cases xs with
    | nil =>
      intro hx
      simp only [List.getLast?_singleton, Option.some.injEq] at hx
      exact h (by simp [hx])
    | cons y ys =>
      rw [List.getLast?_cons_cons]
      exact ih fun hm => h (List.mem_cons_of_mem _ hm)

/-- Bytes that cannot terminate an OSC accumulate in the body buffer with no
output and no events, as long as the buffer stays within the 64 KiB cap. -/
theorem OscParser.parse_oscBody_accum :
    ∀ (ys buf : List Nat), (∀ b ∈ ys, b ≠ 7 ∧ b ≠ 27) → (27 : Nat) ∉ buf →
      buf.length + ys.length ≤ MAX_OSC_BUFFER_SIZE →
      OscParser.parse ⟨PState.OscBody, buf⟩ ys = (⟨PState.OscBody, buf ++ ys⟩, ⟨[], []⟩) := by
  intro ys
  induction ys with
  | nil => intro buf _ _ _; simp [OscParser.parse]
  | cons y ys ih =>
    intro buf hys hbuf hlen
    obtain ⟨hy7, hy27⟩ := hys y (List.mem_cons_self y ys)
    have hnotlast : ¬ (y = 92 ∧ buf.getLast? = some 27) := by
      rintro ⟨-, hl⟩
      exact getLast?_ne_of_not_mem hbuf hl
    have hlt : ¬ MAX_OSC_BUFFER_SIZE ≤ buf.length := by
      simp only [List.length_cons] at hlen
      omega
    have hstep : OscParser.step ⟨PState.OscBody, buf⟩ y
        = (⟨PState.OscBody, buf ++ [y]⟩, [], []) := by
      simp only [OscParser.step]
      rw [if_neg hy7, if_neg hy27, if_neg hnotlast, if_neg hlt]
    simp only [OscParser.parse, hstep]
    rw [ih (buf ++ [y]) (fun b hb => hys b (List.mem_cons_of_mem _ hb))
      (by
        intro hmem
        rcases List.mem_append.mp hmem with hm | hm
        · exact hbuf hm
        · simp at hm
          exact hy27 hm.symm)
      (by
        simp only [List.length_append, List.length_cons, List.length_nil] at hlen ⊢
        omega)]
    simp [List.append_assoc]

/-- A single well-formed token fed to a fresh parser: no events, the token's
BEL-normalized reinjection as output, and the parser back to fresh. -/
theorem OscParser.parse_token (t : Tok) (hwf : t.wf) :
    OscParser.new.parse t.bytes = (OscParser.new, ⟨t.emitted, []⟩) := by
  cases t with
  | plain b =>
    have hb : b ≠ 27 := hwf
    simp only [Tok.bytes, Tok.emitted, OscParser.parse, OscParser.step, OscParser.new]
    rw [if_neg hb]
    by_cases h7 : b = 7 <;> simp [h7]
  | esc2 b =>
    have hb : b ≠ 93 := hwf
    simp only [Tok.bytes, Tok.emitted, OscParser.parse, OscParser.step, OscParser.new]
    norm_num
    rw [if_neg hb]
    exact ⟨rfl, rfl, rfl⟩
  | osc body st =>
    obtain ⟨hbytes, h633, hlen⟩ := hwf
    have hbodylen : body.length ≤ MAX_OSC_BUFFER_SIZE := by
      cases st <;> simp at hlen <;> omega
    have hbody : OscParser.parse ⟨PState.OscBody, []⟩ body
        = (⟨PState.OscBody, body⟩, ⟨[], []⟩) := by
      have := OscParser.parse_oscBody_accum body [] hbytes (by simp) (by simpa)
      simpa using this
    have hopen : OscParser.new.parse [27, 93] = (⟨PState.OscBody, []⟩, ⟨[], []⟩) := by
      decide
    cases st with
    | false =>
      have hterm : OscParser.parse ⟨PState.OscBody, body⟩ [7]
          = (OscParser.new, ⟨[27, 93] ++ body ++ [7], []⟩) := by
        simp only [OscParser.parse, OscParser.step]
        rw [handle_osc_non633 body h633]
        simp [OscParser.new]
      have hbytes_eq : (Tok.osc body false).bytes = [27, 93] ++ body ++ [7] := by
        simp [Tok.bytes]
      rw [hbytes_eq]
      simp only [OscParser.parse_append, hopen, hbody, hterm]
      simp [Tok.emitted]
    | true =>
      have hmax : ¬ MAX_OSC_BUFFER_SIZE ≤ body.length := by
        simp at hlen
        omega
      have hst : OscParser.step ⟨PState.OscBody, body ++ [27]⟩ 92
          = (OscParser.new, [27, 93] ++ body ++ [7], []) := by
        simp only [OscParser.step, List.getLast?_concat, List.dropLast_concat]
        rw [handle_osc_non633 body h633]
        simp [OscParser.new]
      have hpush : OscParser.step ⟨PState.OscBody, body⟩ 27
          = (⟨PState.OscBody, body ++ [27]⟩, [], []) := by
        simp [OscParser.step, hmax]
      have hterm : OscParser.parse ⟨PState.OscBody, body⟩ [27, 92]
          = (OscParser.new, ⟨[27, 93] ++ body ++ [7], []⟩) := by
        simp only [OscParser.parse]
        rw [hpush]
        simp [hst]
      have hbytes_eq : (Tok.osc body true).bytes = [27, 93] ++ body ++ [27, 92] := by
        simp [Tok.bytes]
      rw [hbytes_eq]
      rw [show ([27, 93] ++ body ++ [27, 92] : List Nat)
            = ([27, 93] ++ body) ++ [27, 92] from rfl]
      simp only [OscParser.parse_append, hopen, hbody, hterm]
      simp [Tok.emitted]

/-- A fresh-parser run over a concatenation of well-formed tokens: no
events, and per-token BEL-normalized reinjection. -/
theorem OscParser.parse_tokens (ts : List Tok) (hwf : ∀ t ∈ ts, t.wf) :
    OscParser.new.parse (ts.flatMap Tok.bytes)
      = (OscParser.new, ⟨ts.flatMap Tok.emitted, []⟩) := by
  induction ts with
  | nil => simp [OscParser.parse]
  | cons t ts ih =>
    have h1 := OscParser.parse_token t (hwf t (List.mem_cons_self t ts))
    have h2 := ih fun u hu => hwf u (List.mem_cons_of_mem _ hu)
    simp only [List.flatMap_cons, OscParser.parse_append, h1, h2]
    simp

/-- A BEL-terminated token is emitted exactly as it arrived. -/
theorem Tok.emitted_eq_bytes_of_belTerminated :
    ∀ ts : List Tok, (∀ t ∈ ts, t.belTerminated) →
      ts.flatMap Tok.emitted = ts.flatMap Tok.bytes := by
  intro ts hbel
  induction ts with
  | nil => rfl
  | cons t ts ih =>
    have ht := hbel t (List.mem_cons_self t ts)
    have hts := ih fun u hu => hbel u (List.mem_cons_of_mem _ hu)
    simp only [List.flatMap_cons, hts]
    cases t with
    | plain b => rfl
    | esc2 b => rfl
    | osc body st =>
      have : st = false := ht
      subst this
      rfl

/-! ## C2: pass-through of non-633 input -/

/-- C2 (counterexample): the input `ESC ] a ESC \` contains no `ESC ] 633;`
marker, yet the parser reinjects the OSC with a BEL terminator in place of
the `ESC \`, so the output differs from the input byte-for-byte; and the
single byte `ESC` (also free of any `633;` sequence) is withheld in parser
state, producing empty output.  This refutes the claim as stated. -/
theorem osc_passthrough_counterexample :
    (¬ [27, 93, 54, 51, 51, 59] <:+: [27, 93, 97, 27, 92])
    ∧ (OscParser.new.parse [27, 93, 97, 27, 92]).2.events = []
    ∧ (OscParser.new.parse [27, 93, 97, 27, 92]).2.output = [27, 93, 97, 7]
    ∧ (OscParser.new.parse [27, 93, 97, 27, 92]).2.output ≠ [27, 93, 97, 27, 92]
    ∧ (¬ [27, 93, 54, 51, 51, 59] <:+: [27])
    ∧ (OscParser.new.parse [27]).2.output ≠ [27] := by
  decide

/-- C2 (amended): over any concatenation of well-formed tokens — non-ESC
bytes, `ESC x` pairs with `x ≠ ']'`, and complete terminated OSC sequences
whose bodies avoid BEL/ESC, do not start with `633;`, and fit the 64 KiB
buffer — the parser emits no events and outputs the input with every
`ESC \`-terminated OSC reinjected with a BEL terminator in its place; in
particular, when every OSC token is BEL-terminated the output equals the
input byte-for-byte. -/
theorem osc_passthrough_non633 (ts : List Tok) (hwf : ∀ t ∈ ts, t.wf) :
    (OscParser.new.parse (ts.flatMap Tok.bytes)).2.events = []
    ∧ (OscParser.new.parse (ts.flatMap Tok.bytes)).2.output = ts.flatMap Tok.emitted
    ∧ ((∀ t ∈ ts, t.belTerminated) →
        (OscParser.new.parse (ts.flatMap Tok.bytes)).2.output = ts.flatMap Tok.bytes) := by
  have h := OscParser.parse_tokens ts hwf
  refine ⟨by rw [h], by rw [h], fun hbel => ?_⟩
  rw [h]
  exact Tok.emitted_eq_bytes_of_belTerminated ts hbel

/-- Witness for `osc_passthrough_non633` at the concrete token list
`h`, `ESC ] 0;T BEL`, `ESC [`. -/
theorem osc_passthrough_non633_witness :
    (∀ t ∈ [Tok.plain 104, Tok.osc [48, 59, 84] false, Tok.esc2 91], t.wf)
    ∧ ((OscParser.new.parse
          (([Tok.plain 104, Tok.osc [48, 59, 84] false, Tok.esc2 91]).flatMap
            Tok.bytes)).2.events = []
        ∧ (OscParser.new.parse
            (([Tok.plain 104, Tok.osc [48, 59, 84] false, Tok.esc2 91]).flatMap
              Tok.bytes)).2.output
          = ([Tok.plain 104, Tok.osc [48, 59, 84] false, Tok.esc2 91]).flatMap
              Tok.emitted
        ∧ ((∀ t ∈ [Tok.plain 104, Tok.osc [48, 59, 84] false, Tok.esc2 91],
              t.belTerminated) →
            (OscParser.new.parse
              (([Tok.plain 104, Tok.osc [48, 59, 84] false, Tok.esc2 91]).flatMap
                Tok.bytes)).2.output
              = ([Tok.plain 104, Tok.osc [48, 59, 84] false, Tok.esc2 91]).flatMap
                  Tok.bytes)) :=
  ⟨by decide, osc_passthrough_non633 _ (by decide)⟩

/-! ## C3: overflow abandonment -/

/-- C3: an OSC body that exceeds 64 KiB without reaching a terminator is
abandoned silently: the `ESC ]` opener plus the 64 Ki + 1 non-terminator
body bytes contribute no output and no events, and the parser continues on
all remaining input exactly as a fresh parser would. -/
theorem osc_overflow_abandons (junk rest : List Nat)
    (hlen : junk.length = MAX_OSC_BUFFER_SIZE + 1)
    (hjunk : ∀ b ∈ junk, b ≠ 7 ∧ b ≠ 27) :
    OscParser.new.parse ([27, 93] ++ junk ++ rest) = OscParser.new.parse rest := by
  have hne : junk ≠ [] := by
    intro h
    rw [h] at hlen
    simp [MAX_OSC_BUFFER_SIZE] at hlen
  have hsplit : junk.dropLast ++ [junk.getLast hne] = junk :=
    List.dropLast_append_getLast hne
  have hpre_mem : ∀ b ∈ junk.dropLast, b ∈ junk :=
    fun b hb => List.Sublist.subset (List.dropLast_sublist junk) hb
  have hpre27 : (27 : Nat) ∉ junk.dropLast := by
    intro hm
    exact (hjunk 27 (hpre_mem 27 hm)).2 rfl
  have hprelen : junk.dropLast.length = MAX_OSC_BUFFER_SIZE := by
    rw [List.length_dropLast, hlen]
    omega
  have haccum : OscParser.parse ⟨PState.OscBody, []⟩ junk.dropLast
      = (⟨PState.OscBody, junk.dropLast⟩, ⟨[], []⟩) := by
    have := OscParser.parse_oscBody_accum junk.dropLast []
      (fun b hb => hjunk b (hpre_mem b hb)) (by simp) (by simp [hprelen])
    simpa using this
  obtain ⟨hz7, hz27⟩ := hjunk (junk.getLast hne) (List.getLast_mem hne)
  have hreset : OscParser.step ⟨PState.OscBody, junk.dropLast⟩ (junk.getLast hne)
      = (OscParser.new, [], []) := by
    simp only [OscParser.step]
    rw [if_neg hz7, if_neg hz27,
      if_neg (by
        rintro ⟨-, hl⟩
        exact getLast?_ne_of_not_mem hpre27 hl),
      if_pos (by rw [hprelen])]
    rfl
  have hlast : OscParser.parse ⟨PState.OscBody, junk.dropLast⟩ [junk.getLast hne]
      = (OscParser.new, ⟨[], []⟩) := by
    simp only [OscParser.parse, hreset]
    simp
  have hopen : OscParser.new.parse [27, 93] = (⟨PState.OscBody, []⟩, ⟨[], []⟩) := by
    decide
  have hjunkparse : OscParser.parse ⟨PState.OscBody, []⟩ junk
      = (OscParser.new, ⟨[], []⟩) := by
    rw [← hsplit, OscParser.parse_append, haccum]
    simp [hlast]
  rw [show ([27, 93] ++ junk ++ rest : List Nat) = [27, 93] ++ (junk ++ rest) by
    simp [List.append_assoc]]
  rw [OscParser.parse_append, hopen]
  simp only [OscParser.parse_append, hjunkparse]
  simp

/-- Witness for `osc_overflow_abandons` on a 64 Ki + 1 byte body of `A`s
followed by the byte `h`. -/
theorem osc_overflow_abandons_witness :
    ((List.replicate (MAX_OSC_BUFFER_SIZE + 1) 65).length = MAX_OSC_BUFFER_SIZE + 1)
    ∧ (∀ b ∈ List.replicate (MAX_OSC_BUFFER_SIZE + 1) 65, b ≠ 7 ∧ b ≠ 27)
    ∧ OscParser.new.parse
        ([27, 93] ++ List.replicate (MAX_OSC_BUFFER_SIZE + 1) 65 ++ [104])
        = OscParser.new.parse [104] := by
  have h1 : (List.replicate (MAX_OSC_BUFFER_SIZE + 1) 65).length
      = MAX_OSC_BUFFER_SIZE + 1 := List.length_replicate _ _
  have h2 : ∀ b ∈ List.replicate (MAX_OSC_BUFFER_SIZE + 1) 65, b ≠ 7 ∧ b ≠ 27 := by
    intro b hb
    rw [List.eq_of_mem_replicate hb]
    exact ⟨by decide, by decide⟩
  exact ⟨h1, h2, osc_overflow_abandons _ _ h1 h2⟩

/-! ## C5: sidecar restart policy -/

/-- C5: `can_restart()` holds exactly when `restart_count < max_restarts`
(default 3); a failed `restart()` leaves the manager (hence the process)
untouched and returns an error, a permitted `restart()` increments
`restart_count` by exactly one; `mark_healthy()` sets `Healthy` and resets
the counter to 0; and `backoff_duration()` is `2^min(restart_count, 3)`
seconds. -/
theorem sidecar_restart_policy (m : SidecarManager) (spawn : Except String Nat)
    (port : Nat) :
    (m.can_restart = true ↔ m.restart_count < m.max_restarts)
    ∧ (SidecarManager.new port).max_restarts = 3
    ∧ (m.can_restart = false →
        (m.restart spawn).1 = m ∧ ∃ e, (m.restart spawn).2 = Except.error e)
    ∧ (m.can_restart = true →
        (m.restart spawn).1.restart_count = m.restart_count + 1)
    ∧ m.mark_healthy.status = SidecarStatus.Healthy
    ∧ m.mark_healthy.restart_count = 0
    ∧ m.backoff_duration_secs = 2 ^ min m.restart_count 3 := by
  refine ⟨by simp [SidecarManager.can_restart], rfl, ?_, ?_, rfl, rfl, ?_⟩
  · intro h
    refine ⟨?_, ?_⟩ <;> simp [SidecarManager.restart, h]
  · intro h
    cases spawn <;>
      simp [SidecarManager.restart, h, SidecarManager.stop, SidecarManager.start]
  · simp [SidecarManager.backoff_duration_secs, Nat.shiftLeft_eq]

/-- Witness for `sidecar_restart_policy`: a fresh manager (counter 0) may
restart and increments to 1; a manager at the limit (counter 3) is left
unchanged with an error. -/
theorem sidecar_restart_policy_witness :
    (((SidecarManager.new 9400).restart (Except.ok 2)).1.restart_count
        = (SidecarManager.new 9400).restart_count + 1)
    ∧ (({ SidecarManager.new 9400 with restart_count := 3 }.restart
          (Except.ok 2)).1 = { SidecarManager.new 9400 with restart_count := 3 }
        ∧ ∃ e, ({ SidecarManager.new 9400 with restart_count := 3 }.restart
            (Except.ok 2)).2 = Except.error e) :=
  ⟨(sidecar_restart_policy (SidecarManager.new 9400) (Except.ok 2) 9400).2.2.2.1
      (by decide),
   (sidecar_restart_policy { SidecarManager.new 9400 with restart_count := 3 }
      (Except.ok 2) 9400).2.2.1 (by decide)⟩

/-! ## C4: hash-skip idempotence of the per-file pipeline -/

/-- C4: when the stored `file_index` hash for `(path, active profile)`
equals the SHA-256 of the current content — as after a previous successful
run on byte-identical content — the per-file Upsert pipeline returns before
any progress event, any embedding deletion, and any `/ingest` call: the
action trace is empty and both the store (in particular `file_index`) and
the indexing counters are unchanged. -/
theorem indexing_hash_skip (db : Db) (ix : IndexingState) (path content : String)
    (sha256 : String → String) (ext : Option String) (git_branch : String)
    (ingestResult : Except String IngestResponse) (freshIds : List String) (now : Nat)
    (profile_id : String)
    (hprof : get_active_profile_id db = some profile_id)
    (htrim : ¬ rustTrim content = "")
    (hhash : get_file_hash db path profile_id = some (sha256 content)) :
    process_file_with_events db ix path (some content) sha256 ext git_branch
      ingestResult freshIds now = (db, ix, []) := by
  simp [process_file_with_events, hprof, hhash, htrim]

/-- Witness for `indexing_hash_skip` on a one-row store whose recorded hash
matches the current content under the hash function `fun s => "#" ++ s`. -/
theorem indexing_hash_skip_witness :
    (get_active_profile_id
        (⟨some "p1", [⟨"a.rs", "p1", "#fn a(){}", "rust", 1, 8, 0⟩], []⟩ : Db)
      = some "p1")
    ∧ (¬ rustTrim "fn a(){}" = "")
    ∧ (get_file_hash
        (⟨some "p1", [⟨"a.rs", "p1", "#fn a(){}", "rust", 1, 8, 0⟩], []⟩ : Db)
        "a.rs" "p1" = some ((fun s => "#" ++ s) "fn a(){}"))
    ∧ process_file_with_events
        (⟨some "p1", [⟨"a.rs", "p1", "#fn a(){}", "rust", 1, 8, 0⟩], []⟩ : Db)
        ⟨1, 1, none⟩ "a.rs" (some "fn a(){}") (fun s => "#" ++ s) (some "rs") "main"
        (Except.ok ⟨1, []⟩) [] 5
      = ((⟨some "p1", [⟨"a.rs", "p1", "#fn a(){}", "rust", 1, 8, 0⟩], []⟩ : Db),
          (⟨1, 1, none⟩ : IndexingState), ([] : List WatchAction)) := by
  refine ⟨rfl, by decide, rfl, ?_⟩
  exact indexing_hash_skip _ _ _ _ _ _ _ _ _ _ _ rfl (by decide) rfl

/-! ## Helper lemmas: entity-link upsert -/

/-- The conflict update touches only value columns, so every key count is
unchanged. -/
theorem countP_linkUpdate (table : List EntityLinkRow) (source target rel : String)
    (c : ℚ) (a : Bool) (x : Option String) (s' t' r' : String) :
    (table.map fun row =>
        if linkKeyMatch source target rel row then
          { row with confidence := c, auto_generated := a, context := x }
        else row).countP (linkKeyMatch s' t' r')
      = table.countP (linkKeyMatch s' t' r') := by
  induction table with
  | nil => rfl
  | cons row rows ih =>
    simp only [List.map_cons, List.countP_cons, ih]
    congr 1
    by_cases h : linkKeyMatch source target rel row <;> simp [h] <;> rfl

/-- After one upsert, the table has exactly one row with the upserted key
(provided the unique index held before). -/
theorem create_link_countP (table : List EntityLinkRow) (newId : String) (now : Nat)
    (source target rel : String) (c : ℚ) (a : Bool) (x : Option String)
    (huniq : table.countP (linkKeyMatch source target rel) ≤ 1) :
    (create_entity_link_with_confidence table newId now source target rel c a x).1.countP
      (linkKeyMatch source target rel) = 1 := by
  unfold create_entity_link_with_confidence
  by_cases h : table.any (linkKeyMatch source target rel)
  · simp only [h, if_true]
    rw [countP_linkUpdate]
    have hpos : 0 < table.countP (linkKeyMatch source target rel) := by
      rw [List.countP_pos]
      simpa [List.any_eq_true] using h
    omega
  · simp only [h, Bool.false_eq_true, if_false]
    rw [List.countP_append]
    have h0 : table.countP (linkKeyMatch source target rel) = 0 := by
      rw [List.countP_eq_zero]
      intro y hy
      have := (List.any_eq_true.not.mp (by simpa using h))
      intro hky
      exact this ⟨y, hy, hky⟩
    simp [h0, linkKeyMatch]

/-- After an upsert hitting the conflict path, every row with the key holds
the newly passed values. -/
theorem create_link_conflict_values (table : List EntityLinkRow) (newId : String)
    (now : Nat) (source target rel : String) (c : ℚ) (a : Bool) (x : Option String)
    (hconf : table.any (linkKeyMatch source target rel) = true) :
    ∀ row ∈ (create_entity_link_with_confidence table newId now source target rel
        c a x).1,
      linkKeyMatch source target rel row = true →
        row.confidence = c ∧ row.context = x ∧ row.auto_generated = a := by
  unfold create_entity_link_with_confidence
  simp only [hconf, if_true]
  intro row hrow hkey
  obtain ⟨y, hy, hyz⟩ := List.mem_map.mp hrow
  by_cases h : linkKeyMatch source target rel y
  · rw [if_pos h] at hyz
    subst hyz
    exact ⟨rfl, rfl, rfl⟩
  · rw [if_neg h] at hyz
    subst hyz
    exact absurd hkey h

/-- `find?` commutes with the conflict update. -/
theorem find?_linkUpdate (table : List EntityLinkRow) (source target rel : String)
    (c : ℚ) (a : Bool) (x : Option String) :
    (table.map fun row =>
        if linkKeyMatch source target rel row then
          { row with confidence := c, auto_generated := a, context := x }
        else row).find? (linkKeyMatch source target rel)
      = (table.find? (linkKeyMatch source target rel)).map fun row =>
          { row with confidence := c, auto_generated := a, context := x } := by
  induction table with
  | nil => rfl
  | cons row rows ih =>
    by_cases h : linkKeyMatch source target rel row
    · simp only [List.map_cons, if_pos h]
      rw [List.find?_cons_of_pos _ (by exact h), List.find?_cons_of_pos _ (by exact h)]
      rfl
    · simp only [List.map_cons, if_neg h]
      rw [List.find?_cons_of_neg _ (by exact h), List.find?_cons_of_neg _ (by exact h)]
      exact ih

/-! ## C6: link uniqueness, latest values win -/

/-- C6: starting from any table satisfying the unique index, two upserts
with the same `(source, target, relationship_type)` leave exactly one row
for that key, and that row carries the second call's `confidence`,
`context`, and `auto_generated`. -/
theorem entity_link_upsert_latest_wins (table : List EntityLinkRow)
    (id1 id2 : String) (now1 now2 : Nat) (source target rel : String)
    (c1 c2 : ℚ) (a1 a2 : Bool) (x1 x2 : Option String)
    (huniq : LinkKeyUnique table) :
    ((create_entity_link_with_confidence
        (create_entity_link_with_confidence table id1 now1 source target rel
          c1 a1 x1).1
        id2 now2 source target rel c2 a2 x2).1.countP
          (linkKeyMatch source target rel) = 1)
    ∧ ∀ row ∈ (create_entity_link_with_confidence
        (create_entity_link_with_confidence table id1 now1 source target rel
          c1 a1 x1).1
        id2 now2 source target rel c2 a2 x2).1,
        linkKeyMatch source target rel row = true →
          row.confidence = c2 ∧ row.context = x2 ∧ row.auto_generated = a2 := by
  have h1 : (create_entity_link_with_confidence table id1 now1 source target rel
      c1 a1 x1).1.countP (linkKeyMatch source target rel) = 1 :=
    create_link_countP table id1 now1 source target rel c1 a1 x1
      (huniq source target rel)
  have hany : (create_entity_link_with_confidence table id1 now1 source target rel
      c1 a1 x1).1.any (linkKeyMatch source target rel) = true := by
    rw [List.any_eq_true]
    have : 0 < (create_entity_link_with_confidence table id1 now1 source target rel
        c1 a1 x1).1.countP (linkKeyMatch source target rel) := by omega
    simpa using List.countP_pos.mp this
  refine ⟨?_, create_link_conflict_values _ id2 now2 source target rel c2 a2 x2 hany⟩
  exact create_link_countP _ id2 now2 source target rel c2 a2 x2 (by omega)

/-- Witness for `entity_link_upsert_latest_wins`: two upserts on the empty
table. -/
theorem entity_link_upsert_latest_wins_witness :
    LinkKeyUnique []
    ∧ (((create_entity_link_with_confidence
          (create_entity_link_with_confidence [] "L1" 1 "e1" "e2" "references"
            (1/2) true (some "ctx1")).1
          "L2" 2 "e1" "e2" "references" (3/4) false (some "ctx2")).1.countP
            (linkKeyMatch "e1" "e2" "references") = 1)
        ∧ ∀ row ∈ (create_entity_link_with_confidence
            (create_entity_link_with_confidence [] "L1" 1 "e1" "e2" "references"
              (1/2) true (some "ctx1")).1
            "L2" 2 "e1" "e2" "references" (3/4) false (some "ctx2")).1,
            linkKeyMatch "e1" "e2" "references" row = true →
              row.confidence = 3/4 ∧ row.context = some "ctx2"
                ∧ row.auto_generated = false) :=
  ⟨fun s t r => by simp,
   entity_link_upsert_latest_wins [] "L1" "L2" 1 2 "e1" "e2" "references"
     (1/2) (3/4) true false (some "ctx1") (some "ctx2") (fun s t r => by simp)⟩

/-! ## C10: conflict keeps the original row id -/

/-- C10: when the upsert hits the uniqueness conflict, the existing row is
updated in place and the freshly generated uuid is discarded — the returned
row carries the original row's `id` and `created_at` (with the new
`confidence`, `auto_generated`, `context`) — and `confirm_entity_link` by
that original id still succeeds on the resulting table, marking the row
user-confirmed. -/
theorem entity_link_conflict_preserves_id (table : List EntityLinkRow)
    (newId : String) (now : Nat) (source target rel : String) (c : ℚ) (a : Bool)
    (x : Option String) (row0 : EntityLinkRow)
    (hfind : table.find? (linkKeyMatch source target rel) = some row0) :
    ((create_entity_link_with_confidence table newId now source target rel c a x).2
        = some { row0 with confidence := c, auto_generated := a, context := x })
    ∧ (∀ ret, (create_entity_link_with_confidence table newId now source target rel
          c a x).2 = some ret → ret.id = row0.id ∧ ret.created_at = row0.created_at)
    ∧ ((confirm_entity_link
          (create_entity_link_with_confidence table newId now source target rel
            c a x).1 row0.id).2 = true)
    ∧ ∀ row ∈ (confirm_entity_link
          (create_entity_link_with_confidence table newId now source target rel
            c a x).1 row0.id).1,
        row.id = row0.id → row.auto_generated = false := by
  have hkey0 : linkKeyMatch source target rel row0 = true := List.find?_some hfind
  have hmem0 : row0 ∈ table := List.mem_of_find?_eq_some hfind
  have hconf : table.any (linkKeyMatch source target rel) = true :=
    List.any_eq_true.mpr ⟨row0, hmem0, hkey0⟩
  have htab : (create_entity_link_with_confidence table newId now source target rel
      c a x).1 = table.map fun row =>
        if linkKeyMatch source target rel row then
          { row with confidence := c, auto_generated := a, context := x }
        else row := by
    unfold create_entity_link_with_confidence
    simp only [hconf, if_true]
  have hret : (create_entity_link_with_confidence table newId now source target rel
      c a x).2 = some { row0 with confidence := c, auto_generated := a, context := x } := by
    unfold create_entity_link_with_confidence
    simp only [hconf, if_true]
    rw [find?_linkUpdate, hfind]
    rfl
  refine ⟨hret, ?_, ?_, ?_⟩
  · intro ret hr
    rw [hret] at hr
    cases hr
    exact ⟨rfl, rfl⟩
  · unfold confirm_entity_link
    rw [htab]
    simp only [List.any_eq_true]
    refine ⟨{ row0 with confidence := c, auto_generated := a, context := x }, ?_, ?_⟩
    · exact List.mem_map.mpr ⟨row0, hmem0, by rw [if_pos hkey0]⟩
    · simp
  · unfold confirm_entity_link
    intro row hrow hid
    obtain ⟨y, hy, hyz⟩ := List.mem_map.mp hrow
    by_cases h : y.id == row0.id
    · rw [if_pos h] at hyz
      subst hyz
      rfl
    · rw [if_neg h] at hyz
      subst hyz
      exact absurd (by simp [hid]) h

/-- Witness for `entity_link_conflict_preserves_id` on a one-row table. -/
theorem entity_link_conflict_preserves_id_witness :
    (([(⟨"L1", "e1", "e2", "references", 1/2, true, none, 3⟩ : EntityLinkRow)]).find?
        (linkKeyMatch "e1" "e2" "references")
      = some ⟨"L1", "e1", "e2", "references", 1/2, true, none, 3⟩)
    ∧ (((create_entity_link_with_confidence
          [(⟨"L1", "e1", "e2", "references", 1/2, true, none, 3⟩ : EntityLinkRow)]
          "L2" 9 "e1" "e2" "references" (3/4) true (some "ctx")).2
        = some ⟨"L1", "e1", "e2", "references", 3/4, true, some "ctx", 3⟩)
      ∧ (∀ ret, (create_entity_link_with_confidence
            [(⟨"L1", "e1", "e2", "references", 1/2, true, none, 3⟩ : EntityLinkRow)]
            "L2" 9 "e1" "e2" "references" (3/4) true (some "ctx")).2 = some ret →
          ret.id = "L1" ∧ ret.created_at = 3)
      ∧ ((confirm_entity_link
            (create_entity_link_with_confidence
              [(⟨"L1", "e1", "e2", "references", 1/2, true, none, 3⟩ : EntityLinkRow)]
              "L2" 9 "e1" "e2" "references" (3/4) true (some "ctx")).1 "L1").2 = true)
      ∧ ∀ row ∈ (confirm_entity_link
            (create_entity_link_with_confidence
              [(⟨"L1", "e1", "e2", "references", 1/2, true, none, 3⟩ : EntityLinkRow)]
              "L2" 9 "e1" "e2" "references" (3/4) true (some "ctx")).1 "L1").1,
          row.id = "L1" → row.auto_generated = false) := by
  have hfind : ([(⟨"L1", "e1", "e2", "references", 1/2, true, none, 3⟩ : EntityLinkRow)]).find?
      (linkKeyMatch "e1" "e2" "references")
      = some ⟨"L1", "e1", "e2", "references", 1/2, true, none, 3⟩ := by
    rfl
  exact ⟨hfind, entity_link_conflict_preserves_id _ "L2" 9 "e1" "e2" "references"
    (3/4) true (some "ctx") _ hfind⟩

/-! ## C7: universal-search entity score — the recency boost is dead code -/

/-- C7 (the claimed recency boost never fires for current dates): take an
entity titled `Notes`, the query `Notes` (an exact case-insensitive title
match, base score 0.95), `updated_at = "2025-10-12 00:00:00"`, and evaluate
at the very instant of that update: `now = unixEpochSecs 2025 10 12 0 0 0 =
1760227200`, the true epoch second of 2025-10-12 00:00:00 UTC, so the
entity is 0 seconds old — squarely within the claimed 24-hour window.  The
code's `chrono_parse_rough` (365-day years, 30-day months) yields
`1758844800`, lagging the true epoch by 1382400 s (16 days), beyond even
the 7-day window, so `compute_entity_score` leaves the score at 0.95: the
claimed `0.95 + 0.05` (capped to 1.0) is never produced. -/
theorem compute_entity_score_recency_boost_dead :
    unixEpochSecs 2025 10 12 0 0 0 = 1760227200
    ∧ chrono_parse_rough "2025-10-12 00:00:00" = some 1758844800
    ∧ 1760227200 - 1758844800 = 1382400
    ∧ 604800 < 1382400
    ∧ compute_entity_score "Notes" none "Notes" "2025-10-12 00:00:00" 1760227200
        = 95/100
    ∧ compute_entity_score "Notes" none "Notes" "2025-10-12 00:00:00" 1760227200
        ≠ 1 := by
  have hchrono : chrono_parse_rough "2025-10-12 00:00:00" = some 1758844800 := by
    decide
  have hscore : compute_entity_score "Notes" none "Notes" "2025-10-12 00:00:00"
      1760227200 = 95/100 := by
    unfold compute_entity_score
    rw [hchrono]
    norm_num
  refine ⟨by decide, hchrono, by norm_num, by norm_num, hscore, ?_⟩
  rw [hscore]
  norm_num

/-! ## C8: terminal command output is stored verbatim, not truncated -/

/-- C8 (refuting the truncation claim): `insert_terminal_command` binds the
captured output to `stdout_preview` verbatim — for every output, of any
length — and `stdout_size_bytes` to its byte size; no truncation is applied
(the seeded `max_stdout_capture_bytes = 10240` config key is read nowhere).
In particular, a 10241-byte output is stored in full. -/
theorem insert_terminal_command_stores_verbatim :
    (∀ (table : List TerminalCommandRow) (newId profile_id command : String)
        (cwd : Option String) (exit_code : Option Int) (duration_ms : Option Nat)
        (output : String),
      (insert_terminal_command table newId profile_id command cwd exit_code
          duration_ms (some output)).1
        = table ++ [⟨newId, profile_id, command, cwd, exit_code, duration_ms,
            some output, some output.utf8ByteSize⟩])
    ∧ ((insert_terminal_command [] "t1" "p1" "yes" none none none
          (some (String.mk (List.replicate 10241 'a')))).1
        = [⟨"t1", "p1", "yes", none, none, none,
            some (String.mk (List.replicate 10241 'a')),
            some (String.mk (List.replicate 10241 'a')).utf8ByteSize⟩]
        ∧ (String.mk (List.replicate 10241 'a')).length = 10241) := by
  refine ⟨?_, ?_, ?_⟩
  · intro table newId profile_id command cwd exit_code duration_ms output
    rfl
  · simp [insert_terminal_command]
  · show (List.replicate 10241 'a').length = 10241
    rw [List.length_replicate]

/-! ## C9: PTY capture buffer cap -/

/-- C9 (counterexample): the cap check precedes the append, so a capture
buffer of 1 MiB − 1 bytes still accepts an entire further chunk; after a
chunk of two bytes the buffer holds 1 MiB + 1 bytes, exceeding 1 MiB. -/
theorem pty_capture_cap_counterexample :
    PTY_CAPTURE_CAP
      < (capture_run [List.replicate (PTY_CAPTURE_CAP - 1) 97, [97, 97]]).length := by
  have e1 : capture_append [] (List.replicate (PTY_CAPTURE_CAP - 1) 97)
      = List.replicate (PTY_CAPTURE_CAP - 1) 97 := by
    unfold capture_append
    rw [if_pos (by norm_num [PTY_CAPTURE_CAP] : ([] : List Nat).length < PTY_CAPTURE_CAP),
      List.nil_append]
  have e2 : capture_append (List.replicate (PTY_CAPTURE_CAP - 1) 97) [97, 97]
      = List.replicate (PTY_CAPTURE_CAP - 1) 97 ++ [97, 97] := by
    unfold capture_append
    rw [if_pos]
    rw [List.length_replicate]
    norm_num [PTY_CAPTURE_CAP]
  unfold capture_run
  rw [List.foldl_cons, e1, List.foldl_cons, e2, List.foldl_nil,
    List.length_append, List.length_replicate]
  norm_num [PTY_CAPTURE_CAP]

/-- C9 (amended): a pass-through chunk is appended only while the capture
buffer is strictly below 1 MiB, so after any chunk sequence whose chunks are
at most `L` bytes the buffer holds at most 1 MiB − 1 + `L` bytes, and a
buffer at or above 1 MiB never grows again. -/
theorem pty_capture_cap_amended (chunks : List (List Nat)) (L : Nat)
    (hL : ∀ c ∈ chunks, c.length ≤ L) :
    (capture_run chunks).length ≤ PTY_CAPTURE_CAP - 1 + L
    ∧ ∀ (buf chunk : List Nat), PTY_CAPTURE_CAP ≤ buf.length →
        capture_append buf chunk = buf := by
  constructor
  · have hgen : ∀ (cs : List (List Nat)) (buf : List Nat),
        (∀ c ∈ cs, c.length ≤ L) → buf.length ≤ PTY_CAPTURE_CAP - 1 + L →
        (cs.foldl capture_append buf).length ≤ PTY_CAPTURE_CAP - 1 + L := by
      intro cs
      induction cs with
      | nil =>
        intro buf _ hb
        simpa using hb
      | cons ch cs ih =>
        intro buf hcs hb
        simp only [List.foldl_cons]
        apply ih _ fun c hc => hcs c (List.mem_cons_of_mem _ hc)
        unfold capture_append
        split_ifs with h
        · have hch := hcs ch (List.mem_cons_self ch cs)
          simp only [List.length_append]
          omega
        · exact hb
    exact hgen chunks [] hL (by simp)
  · intro buf chunk hbuf
    unfold capture_append
    rw [if_neg (by omega)]

/-- Witness for `pty_capture_cap_amended` with one two-byte chunk. -/
theorem pty_capture_cap_amended_witness :
    (∀ c ∈ [[97, 97]], List.length c ≤ 2)
    ∧ ((capture_run [[97, 97]]).length ≤ PTY_CAPTURE_CAP - 1 + 2
        ∧ ∀ (buf chunk : List Nat), PTY_CAPTURE_CAP ≤ buf.length →
            capture_append buf chunk = buf) :=
  ⟨by decide, pty_capture_cap_amended [[97, 97]] 2 (by decide)⟩
